import Mathlib

/-!
# Verification of `portrait_patch.py`

A shallow embedding of the Stardew Valley HD portrait migration tool
(`portrait_patch.py`) together with theorems settling the specification
claims about it.

Modelling conventions:

* A `PurePath` is modelled as its list of components (`PPath := List String`);
  `PurePath.name` is the last component, `PurePath.parent` drops it,
  `with_suffix` rewrites the final component exactly as CPython does
  (replace from the last dot when that dot is neither the first nor the
  last character of the name, otherwise append).
* The filesystem seen by one migration run is a record `FS`: the list of
  existing files (used for `is_file` checks and `glob("*.png")`) and a map
  from paths to parsed `.pytk.json` descriptor documents (used by
  `create_metadata_json`; opening a missing file raises `FileNotFoundError`,
  which the source catches and turns into `None`, so the map is `Option`
  valued).  The migration only ever writes `.json` metadata files and the
  rewritten `content.json`/`manifest.json`, none of which feed back into
  the reads performed during the loop, so a static snapshot is faithful.
* Python `dict` state (`parsed_files`) is an association list where an
  insertion conses the new binding; lookups take the most recent binding,
  which matches `dict` update/lookup semantics for every observation the
  program makes (`in`, `.get`).
* Each call of `_rewrite` on a per-asset metadata file (always with
  `force_rewrite=True`, a plain write) is recorded as an event in the
  `written` trace of the migration state.
* Machine integers do not occur; Python `int(...)` applied to a JSON number
  is truncation toward zero, modelled on `Rat` via `Int.tdiv`.
-/

/-! ## Characters and the template-token scanner -/

def obrace : Char := '\x7b'

def cbrace : Char := '\x7d'

/-- Does the character list contain two adjacent closing braces? -/
def hasCloseBraces : List Char → Bool
  | [] => false
  | [_] => false
  | a :: b :: t => (a = cbrace && b = cbrace) || hasCloseBraces (b :: t)

/-- Scanner for the regex from line 147 of the source,
`regex.compile(r"\x7b\x7b(.*)\x7d\x7d")` (escaped braces): a search
succeeds iff the string contains `\x7b\x7b` followed (at or after the end
of that opening pair) by `\x7d\x7d`. -/
def searchAfterOpen : List Char → Bool
  | [] => false
  | [_] => false
  | a :: b :: t =>
    if a = obrace && b = obrace then hasCloseBraces t else searchAfterOpen (b :: t)

/-- `content_patcher_token.search(s)` viewed as a Boolean (line 147/166). -/
def content_patcher_token_search (s : String) : Bool :=
  searchAfterOpen s.data

/-! ## Pure paths -/

/-- A `pathlib.PurePath`, as its list of components. -/
abbrev PPath := List String

/-- Split a string at `/` characters (parsing a path string into components). -/
def splitSlashAux : List Char → List Char → List String
  | [], acc => [String.mk acc.reverse]
  | c :: t, acc =>
    if c = '/' then String.mk acc.reverse :: splitSlashAux t []
    else splitSlashAux t (c :: acc)

/-- `pathlib.PurePath(s)` for the slash-separated strings the program feeds it. -/
def parsePath (s : String) : PPath := splitSlashAux s.data []

/-- `PurePath.name`: the final component (`""` for the empty path, matching
`PurePath(".").name == ""`). -/
def pname (p : PPath) : String := (p.getLast?).getD ""

/-- `PurePath.parent` (as components; the parent of a one-component path is
`PurePath(".")`, i.e. `[]`). -/
def pparent (p : PPath) : PPath := p.dropLast

/-- `PurePath.as_posix()`. -/
def asPosix (p : PPath) : String := String.intercalate "/" p

/-- CPython `PurePath.stem`-style computation used by `with_suffix`: the name
without its suffix, where the suffix starts at the last dot provided that dot
is neither the first nor the last character of the name. -/
def pyStem (name : String) : String :=
  let cs := name.data
  match cs.reverse.findIdx? (fun c => c = '.') with
  | none => name
  | some j => if 0 < j ∧ j < cs.length - 1 then String.mk (cs.take (cs.length - 1 - j)) else name

/-- `PurePath.with_suffix(newSuffixText)` on the final component. -/
def withSuffixName (name newSuffixText : String) : String :=
  pyStem name ++ newSuffixText

/-- `PurePath.with_suffix` (line 62, 73, 102, 161, 172). -/
def withSuffix (p : PPath) (newSuffixText : String) : PPath :=
  p.dropLast ++ [withSuffixName (pname p) newSuffixText]

/-- `p.relative_to(base)` for paths built as `base ++ rest`. -/
def relTo (p base : PPath) : PPath := p.drop base.length

/-- Does the string end with the given text (used to model `glob("*.png")`)? -/
def strEndsWith (s pat : String) : Bool := List.isSuffixOf pat.data s.data

/-! ## Legacy descriptors and derived metadata (`create_metadata_json`) -/

/-- The `Animation` block of a legacy `.pytk.json` descriptor. -/
structure PytkAnimation where
  FrameWidth : Option Int
  FrameHeight : Option Int
  FPS : Option Int
  deriving DecidableEq, Repr

/-- A parsed legacy `.pytk.json` descriptor (the fields the program reads or
that the spec mentions). -/
structure PytkDict where
  Scale : Rat
  Animation : Option PytkAnimation
  deriving DecidableEq, Repr

/-- The animation block the successor format would carry.  In the final
revision of the source (lines 114-124) the code emitting it is commented
out, so `create_metadata_json` never produces one; the shape is kept so that
its absence can be stated. -/
structure AssetAnimation where
  HFrames : Int
  VFrames : Int
  Speed : Int
  deriving DecidableEq, Repr

/-- The derived successor metadata document (`asset_dict`, lines 110-113). -/
structure AssetDict where
  Size : Int
  Portrait : String
  Animation : Option AssetAnimation
  deriving DecidableEq, Repr

/-- Python `int(q)` on a JSON number: truncation toward zero. -/
def pyTrunc (q : Rat) : Int := q.num.tdiv q.den

/-- The filesystem snapshot one migration run reads from. -/
structure FS where
  /-- Paths for which `Path.is_file()` is true; also the source of
  `parent.glob("*.png")` results, in iteration order. -/
  files : List PPath
  /-- Parsed contents of legacy descriptor files; `none` where opening the
  path raises `FileNotFoundError`. -/
  pytk : PPath → Option PytkDict

def STARDEW_PORTRAIT_SIZE : Int := 64

/-- `create_metadata_json` (lines 98-125).  Reads
`metadata_file.with_suffix(".pytk.json")`; `None` on `FileNotFoundError`;
otherwise `{"Size": int(Scale) * 64, "Portrait": target_name}`.  The
`Animation` emission is commented out in the source, so the output block is
always absent. -/
def create_metadata_json (fs : FS) (metadata_file : PPath) (target_name : String) :
    Option AssetDict :=
  match fs.pytk (withSuffix metadata_file ".pytk.json") with
  | none => none
  | some pytk_dict =>
    let sprite_size : Int := pyTrunc pytk_dict.Scale * STARDEW_PORTRAIT_SIZE
    some { Size := sprite_size, Portrait := target_name, Animation := none }

/-! ## Manifest dependency rewrite (`remove_pytk_dependency`) -/

/-- One record of the manifest `Dependencies` list: its `UniqueID` plus any
further key/value fields (list-structural equality stands in for Python dict
equality; the two constant records the function manipulates have no extra
fields). -/
structure Dependency where
  UniqueID : String
  extra : List (String × String)
  deriving DecidableEq, Repr

def PYTK_DEPENDENCY : Dependency := ⟨"Platonymous.Toolkit", []⟩

def HD_PORTRAITS_DEPENDENCY : Dependency := ⟨"tlitookilakin.HDPortraits", []⟩

/-- `remove_pytk_dependency` (lines 82-95), restricted to the only field it
touches.  `defaultdict(list, ...)` makes a missing `Dependencies` field an
empty list; the successor record is appended unconditionally, then
`list.remove` deletes the first exact occurrence of the legacy record,
`ValueError` (no occurrence) being swallowed — which is `List.erase`. -/
def remove_pytk_dependency (deps : Option (List Dependency)) : List Dependency :=
  ((deps.getD []) ++ [HD_PORTRAITS_DEPENDENCY]).erase PYTK_DEPENDENCY

/-! ## Change entries and the migration loop (`content_patcher_portraits`) -/

/-- One element of the `Changes` list of `content.json` (the fields the
program reads or writes). -/
structure Entry where
  Action : String
  Target : String
  FromFile : String
  deriving DecidableEq, Repr

/-- The tag recorded per processed filename (`FileParsed`, lines 21-23). -/
inductive FileParsed where
  | INDIVIDUAL
  | GLOBBED
  deriving DecidableEq, Repr

/-- Python `dict` lookup on the association-list model of `parsed_files`
(`name in parsed_files` is `(pyGet l name).isSome`; `parsed_files.get(name)`
is `pyGet l name`). -/
def pyGet : List (String × FileParsed) → String → Option FileParsed
  | [], _ => none
  | (k, v) :: t, key => if k = key then some v else pyGet t key

/-- `list.insert(n, x)`: Python clamps an out-of-range index, so an index at
or beyond the length appends. -/
def pyInsert (n : Nat) (x : α) : List α → List α
  | [] => [x]
  | a :: l =>
    match n with
    | 0 => x :: a :: l
    | m + 1 => a :: pyInsert m x l

/-- `portrait_file` of an entry: `content_patch_dir / PurePath(item["FromFile"])`
(lines 158-160). -/
def portraitFileOf (content_patch_dir : PPath) (e : Entry) : PPath :=
  content_patch_dir ++ parsePath e.FromFile

/-- The in-place rewrite of `metadata_item` into the legacy-target entry
(lines 208-212): `Action = "Load"`, `Target = hd_portraits / name`,
`FromFile = metadata_file.relative_to(content_patch_dir)`. -/
def legacyEntryOf (content_patch_dir hd_portraits : PPath) (e : Entry) : Entry :=
  { e with
    Action := "Load"
    Target := asPosix (hd_portraits ++ [pname (parsePath e.Target)])
    FromFile := asPosix (relTo (withSuffix (portraitFileOf content_patch_dir e) ".json")
      content_patch_dir) }

/-- The inserted successor-target entry `portrait_item` (lines 206, 214-218):
a deep copy of the original entry with `Action = "Load"`,
`Target = hd_portraits_patch / name`,
`FromFile = portrait_file.relative_to(content_patch_dir)`. -/
def succEntryOf (content_patch_dir hd_portraits_patch : PPath) (e : Entry) : Entry :=
  { e with
    Action := "Load"
    Target := asPosix (hd_portraits_patch ++ [pname (parsePath e.Target)])
    FromFile := asPosix (relTo (portraitFileOf content_patch_dir e) content_patch_dir) }

/-- Replace (everywhere it sits in the live list) the original entry tagged
with snapshot index `i` by its legacy rewrite — the in-place mutation of the
aliased `metadata_item` dict. -/
def replaceTag (i : Nat) (legacy : Entry) (l : List (Option Nat × Entry)) :
    List (Option Nat × Entry) :=
  l.map (fun te => if te.1 = some i then (te.1, legacy) else te)

/-- The net effect of lines 206-220 on the live `Changes` list: mutate the
original entry in place into the legacy entry and insert the successor entry
at index `2 * i` (inserted entries carry no tag). -/
def emitPair (i : Nat) (legacy succ : Entry) (l : List (Option Nat × Entry)) :
    List (Option Nat × Entry) :=
  pyInsert (2 * i) (none, succ) (replaceTag i legacy l)

/-- `portrait_file.parent.glob("*.png")` (line 167): the files of the
snapshot lying in that directory whose name ends in `.png`, in iteration
order. -/
def globPng (fs : FS) (dir : PPath) : List PPath :=
  fs.files.filter (fun p => pparent p == dir && strEndsWith (pname p) ".png")

/-- The body of the inner `for globbed_portrait_file in ... .glob("*.png")`
loop (lines 167-186), acting on `(parsed_files, written)`. -/
def globStep (fs : FS) (hdpp_target : String)
    (st : List (String × FileParsed) × List (PPath × AssetDict)) (g : PPath) :
    List (String × FileParsed) × List (PPath × AssetDict) :=
  if (pyGet st.1 (pname g)).isSome then st
  else
    let parsed1 := (pname g, FileParsed.GLOBBED) :: st.1
    let globbed_metadata_file := withSuffix g ".json"
    match create_metadata_json fs globbed_metadata_file hdpp_target with
    | none => (parsed1, st.2)
    | some j => (parsed1, st.2 ++ [(globbed_metadata_file, j)])

/-- The mutable state of one run of `content_patcher_portraits`: the live
`Changes` list (each element tagged with its snapshot index, `none` for
inserted successor entries), `parsed_files`, and the trace of per-asset
metadata writes (`_rewrite(..., force_rewrite=True)` calls). -/
structure MigState where
  changes : List (Option Nat × Entry)
  parsed_files : List (String × FileParsed)
  written : List (PPath × AssetDict)
  deriving DecidableEq, Repr

/-- One iteration of the `for index, metadata_item in enumerate(...copy())`
loop (lines 153-220). -/
def migrateStep (content_patch_dir : PPath) (fs : FS)
    (hd_portraits hd_portraits_patch : PPath) (st : MigState) (ie : Nat × Entry) :
    MigState :=
  let index := ie.1
  let metadata_item := ie.2
  if pname (pparent (parsePath metadata_item.Target)) ≠ "Portraits" then st
  else
    let portrait_file := portraitFileOf content_patch_dir metadata_item
    let metadata_file := withSuffix portrait_file ".json"
    let hdpp_target := asPosix (hd_portraits_patch ++ [pname (parsePath metadata_item.Target)])
    let legacy := legacyEntryOf content_patch_dir hd_portraits metadata_item
    let succ := succEntryOf content_patch_dir hd_portraits_patch metadata_item
    if content_patcher_token_search (pname portrait_file) then
      let pw := (globPng fs (pparent portrait_file)).foldl (globStep fs hdpp_target)
        (st.parsed_files, st.written)
      { changes := emitPair index legacy succ st.changes
        parsed_files := pw.1
        written := pw.2 }
    else if portrait_file ∈ fs.files then
      if pyGet st.parsed_files (pname portrait_file) = some FileParsed.INDIVIDUAL then st
      else
        let parsed1 := (pname portrait_file, FileParsed.INDIVIDUAL) :: st.parsed_files
        match create_metadata_json fs metadata_file hdpp_target with
        | none => { st with parsed_files := parsed1 }
        | some j =>
          { changes := emitPair index legacy succ st.changes
            parsed_files := parsed1
            written := st.written ++ [(metadata_file, j)] }
    else
      { st with changes := emitPair index legacy succ st.changes }

/-- The whole `Changes`-rewriting loop of `content_patcher_portraits`
(lines 151-220): fold the per-entry step over the frozen snapshot
`enumerate(content_dict["Changes"].copy())`, starting from the live list in
its original order. -/
def content_patcher_portraits (content_patch_dir : PPath) (fs : FS)
    (hd_portraits hd_portraits_patch : PPath) (changes : List Entry) : MigState :=
  (changes.enum).foldl (migrateStep content_patch_dir fs hd_portraits hd_portraits_patch)
    { changes := changes.enum.map (fun ie => (some ie.1, ie.2))
      parsed_files := []
      written := [] }

/-! ## The output writer (`_rewrite`, `_get_file_or_backup`) -/

/-- `_get_file_or_backup` (lines 61-63) over a filesystem state mapping
paths to document contents: the `.bak` sibling if it exists, else the file. -/
def get_file_or_backup (fs : PPath → Option α) (file : PPath) : PPath :=
  if (fs (withSuffix file ".bak")).isSome then withSuffix file ".bak" else file

/-- `_rewrite` (lines 66-79) as a filesystem-state transformer: when neither
`force_rewrite` nor copy mode holds and no backup exists, rename the file to
its `.bak` sibling; then write `json_data` at the file (or at its mirror
under `copy_dir`). -/
def rewriteFS (fs : PPath → Option α) (file : PPath) (json_data : α)
    (main_dir : PPath) (copy_dir : Option PPath) (force_rewrite : Bool) :
    PPath → Option α :=
  let backup_file := withSuffix file ".bak"
  let fs1 : PPath → Option α :=
    if !force_rewrite && copy_dir.isNone && (fs backup_file).isNone then
      fun p => if p = backup_file then fs file else if p = file then none else fs p
    else fs
  let target := match copy_dir with
    | none => file
    | some cd => cd ++ relTo file main_dir
  fun p => if p = target then some json_data else fs1 p

/-! ## The classifier (`ModType.identify_folder`) and `main` dispatch -/

/-- The migration strategy tags (`ModType`, lines 243-245). -/
inductive ModType where
  | CONTENT_PATCHER
  | SHOP_TILE_FRAMEWORK
  deriving DecidableEq, Repr

/-- What `identify_folder` inspects about a directory: its name and whether
`directory / "content.json"` is a file. -/
structure DirInfo where
  name : String
  has_content_json : Bool
  deriving DecidableEq, Repr

/-- `ModType.identify_folder` (lines 247-254). -/
def identify_folder (d : DirInfo) : Option ModType :=
  if List.isPrefixOf "[CP]".data d.name.data ∧ d.has_content_json then
    some ModType.CONTENT_PATCHER
  else if List.isPrefixOf "[STM]".data d.name.data then some ModType.SHOP_TILE_FRAMEWORK
  else none

/-- A directory entry seen by `directory.iterdir()` in `main`. -/
structure SubEntry where
  is_dir : Bool
  info : DirInfo
  deriving DecidableEq, Repr

/-- The dispatch of `main` (lines 297-316), abstracted to the list of
(directory, strategy) pairs that get migrated: the root itself when it
classifies, otherwise each immediate subdirectory that classifies. -/
def main_migrations (root : DirInfo) (subs : List SubEntry) : List (DirInfo × ModType) :=
  match identify_folder root with
  | some t => [(root, t)]
  | none =>
    subs.filterMap (fun s =>
      if s.is_dir then (identify_folder s.info).map (fun t => (s.info, t)) else none)

/-! ## Helper lemmas -/

theorem pyInsert_length_append (P : List α) (x : α) (l : List α) :
    pyInsert P.length x (P ++ l) = P ++ x :: l := by
  induction P with
  | nil => cases l <;> rfl
  | cons a P ih => simpa [pyInsert] using ih

theorem hd_dep_ne_pytk_dep : HD_PORTRAITS_DEPENDENCY ≠ PYTK_DEPENDENCY := by decide

/-! ## Claim C5 -/

/-- C5: `remove_pytk_dependency` treats a missing `Dependencies` field as the
empty list, appends the successor dependency record unconditionally (so a
second application appends a second copy), removes the first occurrence of
the legacy record when it is present, and leaves the list unchanged (beyond
the append) when the legacy record is absent. -/
theorem remove_pytk_dependency_spec :
    remove_pytk_dependency none = [HD_PORTRAITS_DEPENDENCY]
    ∧ (∀ l : List Dependency, PYTK_DEPENDENCY ∉ l →
        remove_pytk_dependency (some l) = l ++ [HD_PORTRAITS_DEPENDENCY])
    ∧ (∀ l₁ l₂ : List Dependency, PYTK_DEPENDENCY ∉ l₁ →
        remove_pytk_dependency (some (l₁ ++ PYTK_DEPENDENCY :: l₂))
          = l₁ ++ l₂ ++ [HD_PORTRAITS_DEPENDENCY])
    ∧ (∀ l : List Dependency, PYTK_DEPENDENCY ∉ l →
        remove_pytk_dependency (some (remove_pytk_dependency (some l)))
          = l ++ [HD_PORTRAITS_DEPENDENCY] ++ [HD_PORTRAITS_DEPENDENCY]) := by
  have habs : ∀ l : List Dependency, PYTK_DEPENDENCY ∉ l →
      remove_pytk_dependency (some l) = l ++ [HD_PORTRAITS_DEPENDENCY] := by
    intro l hl
    unfold remove_pytk_dependency
    apply List.erase_of_not_mem
    simp only [List.mem_append, List.mem_singleton]
    rintro (h | h)
    · exact hl h
    · exact hd_dep_ne_pytk_dep h.symm
  refine ⟨?_, habs, ?_, ?_⟩
  · unfold remove_pytk_dependency
    simp [hd_dep_ne_pytk_dep]
  · intro l₁ l₂ h₁
    unfold remove_pytk_dependency
    simp only [Option.getD_some, List.append_assoc, List.cons_append]
    rw [List.erase_append_right _ h₁, List.erase_cons_head]
  · intro l hl
    rw [habs l hl, habs (l ++ [HD_PORTRAITS_DEPENDENCY])]
    simp only [List.mem_append, List.mem_singleton]
    rintro (h | h)
    · exact hl h
    · exact hd_dep_ne_pytk_dep h.symm

/-- Witness for C5: a concrete manifest. -/
theorem remove_pytk_dependency_spec_witness :
    remove_pytk_dependency (some [⟨"Pathoschild.ContentPatcher", []⟩])
      = [⟨"Pathoschild.ContentPatcher", []⟩, HD_PORTRAITS_DEPENDENCY] := by
  have h := remove_pytk_dependency_spec.2.1 [⟨"Pathoschild.ContentPatcher", []⟩] (by decide)
  simpa using h

/-! ## Claim C7 -/

/-- C7: for a legacy descriptor without an animation block, `derive`
(`create_metadata_json`) returns pixel size `int(Scale) * 64`, `Portrait`
equal to the given successor target reference, and no animation block. -/
theorem create_metadata_json_no_animation (fs : FS) (metadata_file : PPath)
    (target_name : String) (d : PytkDict)
    (hread : fs.pytk (withSuffix metadata_file ".pytk.json") = some d)
    (hanim : d.Animation = none) :
    create_metadata_json fs metadata_file target_name
      = some { Size := pyTrunc d.Scale * 64, Portrait := target_name, Animation := none } := by
  simp [create_metadata_json, hread, STARDEW_PORTRAIT_SIZE]

/-- Witness for C7 at a concrete descriptor of scale 2. -/
theorem create_metadata_json_no_animation_witness :
    create_metadata_json
        ⟨[], fun p => if p = ["m.pytk.json"] then some ⟨2, none⟩ else none⟩
        ["m.json"] "Mods/HDPortraitsPatch/Abigail.png"
      = some { Size := 128, Portrait := "Mods/HDPortraitsPatch/Abigail.png", Animation := none } := by
  have h := create_metadata_json_no_animation
    ⟨[], fun p => if p = ["m.pytk.json"] then some ⟨2, none⟩ else none⟩
    ["m.json"] "Mods/HDPortraitsPatch/Abigail.png" ⟨2, none⟩ (by rfl) rfl
  simpa using h

/-! ## Claim C3 -/

/-- C3 counterexample: in the final revision of the source the animation
emission (lines 114-124) is commented out, so `derive` applied to
`{Scale: 2, Animation: {FrameWidth: 256, FrameHeight: 128, FPS: 30}}`
produces NO animation block, not `HFrames 2, VFrames 1, Speed 33` as the
claim states. -/
theorem create_metadata_json_animation_counterexample :
    (create_metadata_json
        ⟨[], fun p => if p = ["m.pytk.json"]
          then some ⟨2, some ⟨some 256, some 128, some 30⟩⟩ else none⟩
        ["m.json"] "t").map AssetDict.Animation = some none
    ∧ (some (none : Option AssetAnimation)
        ≠ some (some { HFrames := 2, VFrames := 1, Speed := 33 })) := by
  refine ⟨rfl, by decide⟩

/-- C3 amended: `derive` ignores any animation block of the legacy
descriptor entirely; for every readable descriptor the output is exactly
`{Size: int(Scale) * 64, Portrait: target}` with no animation block. -/
theorem create_metadata_json_ignores_animation (fs : FS) (metadata_file : PPath)
    (target_name : String) (d : PytkDict)
    (hread : fs.pytk (withSuffix metadata_file ".pytk.json") = some d) :
    create_metadata_json fs metadata_file target_name
      = some { Size := pyTrunc d.Scale * 64, Portrait := target_name, Animation := none } := by
  simp [create_metadata_json, hread, STARDEW_PORTRAIT_SIZE]

/-- Witness for the amended C3 at the claim's own concrete descriptor. -/
theorem create_metadata_json_ignores_animation_witness :
    create_metadata_json
        ⟨[], fun p => if p = ["m.pytk.json"]
          then some ⟨2, some ⟨some 256, some 128, some 30⟩⟩ else none⟩
        ["m.json"] "t"
      = some { Size := 128, Portrait := "t", Animation := none } := by
  have h := create_metadata_json_ignores_animation
    ⟨[], fun p => if p = ["m.pytk.json"]
      then some ⟨2, some ⟨some 256, some 128, some 30⟩⟩ else none⟩
    ["m.json"] "t" ⟨2, some ⟨some 256, some 128, some 30⟩⟩ (by rfl)
  simpa using h

/-! ## Claim C6 -/

/-- C6: demonstration of the re-run behaviour of the in-place writer on a
concrete package.  The first run backs up the original (`content.bak` gets
the original content, the rename happening only because no backup existed).
On the second run `_get_file_or_backup` indeed returns the backup path, and
no second backup appears (`with_suffix(".bak")` of the backup is the backup
itself, so the rename guard sees an existing backup) — but `_rewrite` is
passed that backup path as `file`, so the second run's output is written
over `content.bak`: the first-created backup is NOT preserved, it now holds
the freshly migrated document instead of the original. -/
theorem rewrite_second_run_overwrites_backup :
    (rewriteFS (fun p => if p = ["M", "content.json"] then some "orig" else none)
        ["M", "content.json"] "migrated1" ["M"] none false) ["M", "content.bak"]
      = some "orig"
    ∧ (rewriteFS (fun p => if p = ["M", "content.json"] then some "orig" else none)
        ["M", "content.json"] "migrated1" ["M"] none false) ["M", "content.json"]
      = some "migrated1"
    ∧ get_file_or_backup
        (rewriteFS (fun p => if p = ["M", "content.json"] then some "orig" else none)
          ["M", "content.json"] "migrated1" ["M"] none false) ["M", "content.json"]
      = ["M", "content.bak"]
    ∧ (rewriteFS
        (rewriteFS (fun p => if p = ["M", "content.json"] then some "orig" else none)
          ["M", "content.json"] "migrated1" ["M"] none false)
        ["M", "content.bak"] "migrated2" ["M"] none false) ["M", "content.bak"]
      = some "migrated2"
    ∧ (rewriteFS
        (rewriteFS (fun p => if p = ["M", "content.json"] then some "orig" else none)
          ["M", "content.json"] "migrated1" ["M"] none false)
        ["M", "content.bak"] "migrated2" ["M"] none false) ["M", "content.json"]
      = some "migrated1"
    ∧ some "migrated2" ≠ some "orig" := by
  refine ⟨rfl, rfl, rfl, rfl, rfl, by decide⟩

/-! ## Claim C9 -/

theorem cp_stm_prefixes_disjoint (s : String) :
    List.isPrefixOf "[CP]".data s.data = true →
    List.isPrefixOf "[STM]".data s.data = true → False := by
  intro h1 h2
  rw [List.isPrefixOf_iff_prefix] at h1 h2
  obtain ⟨t1, ht1⟩ := h1
  obtain ⟨t2, ht2⟩ := h2
  rw [← ht1] at ht2
  have hcp : "[CP]".data = ['[', 'C', 'P', ']'] := rfl
  have hstm : "[STM]".data = ['[', 'S', 'T', 'M', ']'] := rfl
  rw [hcp, hstm] at ht2
  simp only [List.cons_append, List.cons.injEq] at ht2
  exact absurd ht2.2.1 (by decide)

/-- C9: `identify_folder` returns the content-patcher strategy exactly when
the directory name starts with `[CP]` and `content.json` exists at its root,
the shop-framework strategy exactly when the name starts with `[STM]`
(the two prefixes are mutually exclusive), and `None` otherwise; `main`
migrates the root itself when it classifies, and when the root does not
classify it classifies each immediate subdirectory independently and
migrates exactly the matching ones. -/
theorem identify_folder_spec :
    (∀ d : DirInfo, identify_folder d = some ModType.CONTENT_PATCHER
      ↔ (List.isPrefixOf "[CP]".data d.name.data = true ∧ d.has_content_json = true))
    ∧ (∀ d : DirInfo, identify_folder d = some ModType.SHOP_TILE_FRAMEWORK
      ↔ List.isPrefixOf "[STM]".data d.name.data = true)
    ∧ (∀ d : DirInfo, identify_folder d = none
      ↔ (¬(List.isPrefixOf "[CP]".data d.name.data = true ∧ d.has_content_json = true)
        ∧ List.isPrefixOf "[STM]".data d.name.data = false))
    ∧ (∀ (root : DirInfo) (subs : List SubEntry) (t : ModType),
        identify_folder root = some t → main_migrations root subs = [(root, t)])
    ∧ (∀ (root : DirInfo) (subs : List SubEntry),
        identify_folder root = none →
        ∀ p : DirInfo × ModType,
          p ∈ main_migrations root subs
            ↔ ∃ s ∈ subs, s.is_dir = true ∧ s.info = p.1
                ∧ identify_folder s.info = some p.2) := by
  have hval : ∀ d : DirInfo,
      ((List.isPrefixOf "[CP]".data d.name.data = true ∧ d.has_content_json = true) →
        identify_folder d = some ModType.CONTENT_PATCHER)
      ∧ (¬(List.isPrefixOf "[CP]".data d.name.data = true ∧ d.has_content_json = true) →
          List.isPrefixOf "[STM]".data d.name.data = true →
          identify_folder d = some ModType.SHOP_TILE_FRAMEWORK)
      ∧ (¬(List.isPrefixOf "[CP]".data d.name.data = true ∧ d.has_content_json = true) →
          List.isPrefixOf "[STM]".data d.name.data = false →
          identify_folder d = none) := by
    intro d
    refine ⟨?_, ?_, ?_⟩
    · intro h
      unfold identify_folder
      rw [if_pos h]
    · intro h1 h2
      unfold identify_folder
      rw [if_neg h1, if_pos h2]
    · intro h1 h2
      unfold identify_folder
      rw [if_neg h1, if_neg (by simp [h2])]
  have main3 : ∀ d : DirInfo,
      (identify_folder d = some ModType.CONTENT_PATCHER
        ↔ (List.isPrefixOf "[CP]".data d.name.data = true ∧ d.has_content_json = true))
      ∧ (identify_folder d = some ModType.SHOP_TILE_FRAMEWORK
        ↔ List.isPrefixOf "[STM]".data d.name.data = true)
      ∧ (identify_folder d = none
        ↔ (¬(List.isPrefixOf "[CP]".data d.name.data = true ∧ d.has_content_json = true)
          ∧ List.isPrefixOf "[STM]".data d.name.data = false)) := by
    intro d
    by_cases h1 : (List.isPrefixOf "[CP]".data d.name.data = true ∧ d.has_content_json = true)
    · have hstm : List.isPrefixOf "[STM]".data d.name.data = false := by
        by_contra hc
        rw [Bool.not_eq_false] at hc
        exact cp_stm_prefixes_disjoint d.name h1.1 hc
      rw [(hval d).1 h1]
      refine ⟨by simp [h1.1, h1.2], by simp [hstm], by simp [h1.1, h1.2]⟩
    · by_cases h2 : List.isPrefixOf "[STM]".data d.name.data = true
      · rw [(hval d).2.1 h1 h2]
        refine ⟨⟨fun hc => absurd hc (by simp), fun hc => absurd hc h1⟩,
          by simp [h2], by simp [h2]⟩
      · rw [Bool.not_eq_true] at h2
        rw [(hval d).2.2 h1 h2]
        refine ⟨⟨fun hc => absurd hc (by simp), fun hc => absurd hc h1⟩,
          by simp [h2], ⟨fun _ => ⟨h1, h2⟩, fun _ => rfl⟩⟩
  refine ⟨fun d => (main3 d).1, fun d => (main3 d).2.1, fun d => (main3 d).2.2, ?_, ?_⟩
  · intro root subs t h
    simp [main_migrations, h]
  · intro root subs h p
    simp only [main_migrations, h, List.mem_filterMap]
    constructor
    · rintro ⟨s, hs, hmap⟩
      by_cases hd : s.is_dir
      · rw [if_pos hd, Option.map_eq_some'] at hmap
        obtain ⟨t, ht, hpt⟩ := hmap
        refine ⟨s, hs, hd, ?_, ?_⟩
        · rw [← hpt]
        · rw [← hpt]; exact ht
      · rw [if_neg hd] at hmap
        exact absurd hmap (by simp)
    · rintro ⟨s, hs, hd, hinfo, hident⟩
      refine ⟨s, hs, ?_⟩
      rw [if_pos hd, hident]
      simp only [Option.map_some']
      rw [hinfo]

/-- Witness for C9: a concrete content-patcher package and a concrete batch
dispatch. -/
theorem identify_folder_spec_witness :
    main_migrations ⟨"[CP] Gorgeous Hair", true⟩ []
      = [(⟨"[CP] Gorgeous Hair", true⟩, ModType.CONTENT_PATCHER)] :=
  identify_folder_spec.2.2.2.1 ⟨"[CP] Gorgeous Hair", true⟩ [] ModType.CONTENT_PATCHER
    (by decide)

/-! ## Claim C10 -/

/-- C10: a non-templated portrait entry whose referenced source image does
not exist on disk writes no metadata descriptor and records nothing in
`parsed_files`, yet is still rewritten into the doubled pair: the successor
entry sourcing the (nonexistent) image path, and, in place of the original,
the legacy entry sourcing the corresponding `.json` metadata path. -/
theorem migrateStep_missing_file (cpd : PPath) (fs : FS) (hd hdp : PPath)
    (st : MigState) (i : Nat) (e : Entry)
    (hmatch : pname (pparent (parsePath e.Target)) = "Portraits")
    (htok : content_patcher_token_search (pname (portraitFileOf cpd e)) = false)
    (hnofile : portraitFileOf cpd e ∉ fs.files) :
    migrateStep cpd fs hd hdp st (i, e)
      = { changes :=
            pyInsert (2 * i)
              (none,
                { e with
                  Action := "Load"
                  Target := asPosix (hdp ++ [pname (parsePath e.Target)])
                  FromFile := asPosix (relTo (portraitFileOf cpd e) cpd) })
              (replaceTag i
                { e with
                  Action := "Load"
                  Target := asPosix (hd ++ [pname (parsePath e.Target)])
                  FromFile := asPosix (relTo (withSuffix (portraitFileOf cpd e) ".json") cpd) }
                st.changes)
          parsed_files := st.parsed_files
          written := st.written } := by
  simp [migrateStep, hmatch, htok, hnofile, emitPair, legacyEntryOf, succEntryOf]

/-- Witness for C10 at a concrete one-entry change list. -/
theorem migrateStep_missing_file_witness :
    migrateStep ["M"] ⟨[], fun _ => none⟩ ["Mods", "HDPortraits"] ["Mods", "HDPortraitsPatch"]
        ⟨[(some 0, ⟨"Load", "Portraits/Bella.png", "b.png"⟩)], [], []⟩
        (0, ⟨"Load", "Portraits/Bella.png", "b.png"⟩)
      = ⟨[(none, ⟨"Load", "Mods/HDPortraitsPatch/Bella.png", "b.png"⟩),
          (some 0, ⟨"Load", "Mods/HDPortraits/Bella.png", "b.json"⟩)], [], []⟩ := by
  have h := migrateStep_missing_file ["M"] ⟨[], fun _ => none⟩
    ["Mods", "HDPortraits"] ["Mods", "HDPortraitsPatch"]
    ⟨[(some 0, ⟨"Load", "Portraits/Bella.png", "b.png"⟩)], [], []⟩ 0
    ⟨"Load", "Portraits/Bella.png", "b.png"⟩ (by decide) (by decide) (by decide)
  rw [h]
  rfl

/-! ## Claim C4 -/

/-- C4 counterexample: a literal (non-templated) portrait entry whose image
exists but whose legacy descriptor is missing is NOT rewritten into a
doubled pair — the `continue` on the absent metadata skips the pair
emission, leaving the single original entry unmodified (while `derive`
returns absent and nothing is written). -/
theorem literal_missing_descriptor_counterexample :
    (content_patcher_portraits ["M"] ⟨[["M", "b.png"]], fun _ => none⟩
        ["Mods", "HDPortraits"] ["Mods", "HDPortraitsPatch"]
        [⟨"Load", "Portraits/Bella.png", "b.png"⟩]).changes.map Prod.snd
      = [⟨"Load", "Portraits/Bella.png", "b.png"⟩]
    ∧ (content_patcher_portraits ["M"] ⟨[["M", "b.png"]], fun _ => none⟩
        ["Mods", "HDPortraits"] ["Mods", "HDPortraitsPatch"]
        [⟨"Load", "Portraits/Bella.png", "b.png"⟩]).changes.length = 1
    ∧ (content_patcher_portraits ["M"] ⟨[["M", "b.png"]], fun _ => none⟩
        ["Mods", "HDPortraits"] ["Mods", "HDPortraitsPatch"]
        [⟨"Load", "Portraits/Bella.png", "b.png"⟩]).written = []
    ∧ create_metadata_json ⟨[["M", "b.png"]], fun _ => none⟩ ["M", "b.json"]
        "Mods/HDPortraitsPatch/Bella.png" = none := ⟨rfl, rfl, rfl, rfl⟩

/-- Helper: the templated branch's glob fold writes nothing when no globbed
file has a legacy descriptor. -/
theorem globFold_written_no_descriptor (fs : FS) (t : String) :
    ∀ (gl : List PPath) (parsed : List (String × FileParsed))
      (written : List (PPath × AssetDict)),
    (∀ g ∈ gl, fs.pytk (withSuffix (withSuffix g ".json") ".pytk.json") = none) →
    (gl.foldl (globStep fs t) (parsed, written)).2 = written := by
  intro gl
  induction gl with
  | nil => intro parsed written _; rfl
  | cons g gl ih =>
    intro parsed written h
    rw [List.foldl_cons]
    have h1 : ∃ p1, globStep fs t (parsed, written) g = (p1, written) := by
      by_cases hc : (pyGet parsed (pname g)).isSome
      · exact ⟨parsed, by simp [globStep, hc]⟩
      · refine ⟨(pname g, FileParsed.GLOBBED) :: parsed, ?_⟩
        simp [globStep, hc, create_metadata_json, h g (by simp)]
    obtain ⟨p1, hp1⟩ := h1
    rw [hp1]
    exact ih p1 written (fun g2 hg2 => h g2 (List.mem_cons_of_mem _ hg2))

/-- C4 amended: a missing legacy descriptor makes `derive` return absent and
is never a fatal error, and no metadata file is written for the asset; a
TEMPLATED entry still emits its doubled pair of change-list entries, but a
LITERAL entry whose descriptor is missing is left unmodified — no pair is
emitted for it (its filename is still tagged `Individual`). -/
theorem migrate_missing_descriptor_soft_skip :
    (∀ (fs : FS) (metadata_file : PPath) (target_name : String),
        fs.pytk (withSuffix metadata_file ".pytk.json") = none →
        create_metadata_json fs metadata_file target_name = none)
    ∧ (∀ (cpd : PPath) (fs : FS) (hd hdp : PPath) (st : MigState) (i : Nat) (e : Entry),
        pname (pparent (parsePath e.Target)) = "Portraits" →
        content_patcher_token_search (pname (portraitFileOf cpd e)) = false →
        portraitFileOf cpd e ∈ fs.files →
        pyGet st.parsed_files (pname (portraitFileOf cpd e)) ≠ some FileParsed.INDIVIDUAL →
        create_metadata_json fs (withSuffix (portraitFileOf cpd e) ".json")
          (asPosix (hdp ++ [pname (parsePath e.Target)])) = none →
        migrateStep cpd fs hd hdp st (i, e)
          = { st with parsed_files :=
              (pname (portraitFileOf cpd e), FileParsed.INDIVIDUAL) :: st.parsed_files })
    ∧ (∀ (cpd : PPath) (fs : FS) (hd hdp : PPath) (st : MigState) (i : Nat) (e : Entry),
        pname (pparent (parsePath e.Target)) = "Portraits" →
        content_patcher_token_search (pname (portraitFileOf cpd e)) = true →
        (∀ g ∈ globPng fs (pparent (portraitFileOf cpd e)),
          fs.pytk (withSuffix (withSuffix g ".json") ".pytk.json") = none) →
        (migrateStep cpd fs hd hdp st (i, e)).changes
            = emitPair i (legacyEntryOf cpd hd e) (succEntryOf cpd hdp e) st.changes
          ∧ (migrateStep cpd fs hd hdp st (i, e)).written = st.written) := by
  refine ⟨?_, ?_, ?_⟩
  · intro fs metadata_file target_name h
    simp [create_metadata_json, h]
  · intro cpd fs hd hdp st i e hmatch htok hfile htag hcreate
    simp [migrateStep, hmatch, htok, hfile, htag, hcreate]
  · intro cpd fs hd hdp st i e hmatch htok hglob
    constructor
    · simp [migrateStep, hmatch, htok]
    · simp only [migrateStep, hmatch, htok]
      simp only [if_neg (by simp : ¬("Portraits" ≠ "Portraits")), if_pos rfl]
      exact globFold_written_no_descriptor fs _ _ _ _ hglob

/-- Witness for the amended C4 at a concrete literal entry. -/
theorem migrate_missing_descriptor_soft_skip_witness :
    migrateStep ["M"] ⟨[["M", "b.png"]], fun _ => none⟩ ["Mods", "HDPortraits"]
        ["Mods", "HDPortraitsPatch"]
        ⟨[(some 0, ⟨"Load", "Portraits/Bella.png", "b.png"⟩)], [], []⟩
        (0, ⟨"Load", "Portraits/Bella.png", "b.png"⟩)
      = ⟨[(some 0, ⟨"Load", "Portraits/Bella.png", "b.png"⟩)],
         [("b.png", FileParsed.INDIVIDUAL)], []⟩ := by
  have h := migrate_missing_descriptor_soft_skip.2.1 ["M"] ⟨[["M", "b.png"]], fun _ => none⟩
    ["Mods", "HDPortraits"] ["Mods", "HDPortraitsPatch"]
    ⟨[(some 0, ⟨"Load", "Portraits/Bella.png", "b.png"⟩)], [], []⟩ 0
    ⟨"Load", "Portraits/Bella.png", "b.png"⟩ (by decide) (by decide) (by decide)
    (by decide) (by rfl)
  exact h.trans (by rfl)

/-! ## Claim C2 -/

/-- C2 counterexample: a templated entry globs `a.png`, writes its metadata
and tags it `Globbed`; the LATER LITERAL entry for the same filename is not
skipped (the literal branch only skips on tag `Individual`), so the file's
metadata descriptor is regenerated — the write trace contains two writes of
`a.json`, the second with the later entry's target. -/
theorem globbed_then_literal_counterexample :
    (content_patcher_portraits ["M"]
        ⟨[["M", "a.png"]],
          fun p => if p = ["M", "a.pytk.json"] then some ⟨2, none⟩ else none⟩
        ["Mods", "HDPortraits"] ["Mods", "HDPortraitsPatch"]
        [⟨"Load", "Portraits/Abigail.png", "\x7b\x7bs\x7d\x7d.png"⟩,
         ⟨"Load", "Portraits/Haley.png", "a.png"⟩]).written
      = [(["M", "a.json"], ⟨128, "Mods/HDPortraitsPatch/Abigail.png", none⟩),
         (["M", "a.json"], ⟨128, "Mods/HDPortraitsPatch/Haley.png", none⟩)]
    ∧ (content_patcher_portraits ["M"]
        ⟨[["M", "a.png"]],
          fun p => if p = ["M", "a.pytk.json"] then some ⟨2, none⟩ else none⟩
        ["Mods", "HDPortraits"] ["Mods", "HDPortraitsPatch"]
        [⟨"Load", "Portraits/Abigail.png", "\x7b\x7bs\x7d\x7d.png"⟩,
         ⟨"Load", "Portraits/Haley.png", "a.png"⟩]).parsed_files
      = [("a.png", FileParsed.INDIVIDUAL), ("a.png", FileParsed.GLOBBED)] := ⟨rfl, rfl⟩

/-- C2 amended: a filename tagged `Globbed` is never reprocessed by a later
TEMPLATED entry (the glob branch skips any tagged name), but a later literal
entry referencing that filename does regenerate its metadata and re-tags it
`Individual`; once a filename is tagged `Individual`, a literal entry for it
does nothing at all. -/
theorem parsed_files_reprocessing_rules :
    (∀ (fs : FS) (t : String) (parsed : List (String × FileParsed))
        (written : List (PPath × AssetDict)) (g : PPath),
        (pyGet parsed (pname g)).isSome = true →
        globStep fs t (parsed, written) g = (parsed, written))
    ∧ (∀ (cpd : PPath) (fs : FS) (hd hdp : PPath) (st : MigState) (i : Nat) (e : Entry)
        (j : AssetDict),
        pname (pparent (parsePath e.Target)) = "Portraits" →
        content_patcher_token_search (pname (portraitFileOf cpd e)) = false →
        portraitFileOf cpd e ∈ fs.files →
        pyGet st.parsed_files (pname (portraitFileOf cpd e)) = some FileParsed.GLOBBED →
        create_metadata_json fs (withSuffix (portraitFileOf cpd e) ".json")
          (asPosix (hdp ++ [pname (parsePath e.Target)])) = some j →
        migrateStep cpd fs hd hdp st (i, e)
          = { changes := emitPair i (legacyEntryOf cpd hd e) (succEntryOf cpd hdp e) st.changes
              parsed_files :=
                (pname (portraitFileOf cpd e), FileParsed.INDIVIDUAL) :: st.parsed_files
              written := st.written ++ [(withSuffix (portraitFileOf cpd e) ".json", j)] })
    ∧ (∀ (cpd : PPath) (fs : FS) (hd hdp : PPath) (st : MigState) (i : Nat) (e : Entry),
        pname (pparent (parsePath e.Target)) = "Portraits" →
        content_patcher_token_search (pname (portraitFileOf cpd e)) = false →
        portraitFileOf cpd e ∈ fs.files →
        pyGet st.parsed_files (pname (portraitFileOf cpd e)) = some FileParsed.INDIVIDUAL →
        migrateStep cpd fs hd hdp st (i, e) = st) := by
  refine ⟨?_, ?_, ?_⟩
  · intro fs t parsed written g h
    simp [globStep, h]
  · intro cpd fs hd hdp st i e j hmatch htok hfile htag hcreate
    have hne : pyGet st.parsed_files (pname (portraitFileOf cpd e))
        ≠ some FileParsed.INDIVIDUAL := by
      rw [htag]; simp
    simp [migrateStep, hmatch, htok, hfile, hne, hcreate, emitPair]
  · intro cpd fs hd hdp st i e hmatch htok hfile htag
    simp [migrateStep, hmatch, htok, hfile, htag]

/-- Witness for the amended C2: the glob branch skips an already-tagged
filename. -/
theorem parsed_files_reprocessing_rules_witness :
    globStep ⟨[], fun _ => none⟩ "t" ([("a.png", FileParsed.GLOBBED)], []) ["M", "a.png"]
      = (([("a.png", FileParsed.GLOBBED)]), []) :=
  parsed_files_reprocessing_rules.1 ⟨[], fun _ => none⟩ "t"
    [("a.png", FileParsed.GLOBBED)] [] ["M", "a.png"] (by decide)

/-! ## Claim C8 -/

/-- The close-brace scanner finds exactly the strings containing two
adjacent closing braces. -/
theorem hasCloseBraces_iff : ∀ cs : List Char,
    hasCloseBraces cs = true ↔ ∃ m r : List Char, cs = m ++ cbrace :: cbrace :: r
  | [] => by
    constructor
    · intro h; simp [hasCloseBraces] at h
    · rintro ⟨m, r, h⟩; cases m <;> simp at h
  | [x] => by
    constructor
    · intro h; simp [hasCloseBraces] at h
    · rintro ⟨m, r, h⟩
      cases m with
      | nil => simp at h
      | cons c m => rw [List.cons_append] at h; injection h with h1 h; cases m <;> simp at h
  | a :: b :: t => by
    rw [show hasCloseBraces (a :: b :: t)
        = ((a = cbrace && b = cbrace) || hasCloseBraces (b :: t)) from rfl]
    rw [Bool.or_eq_true, Bool.and_eq_true, hasCloseBraces_iff (b :: t)]
    constructor
    · rintro (⟨ha, hb⟩ | ⟨m, r, hm⟩)
      · exact ⟨[], t, by simp [of_decide_eq_true ha, of_decide_eq_true hb]⟩
      · exact ⟨a :: m, r, by simp [hm]⟩
    · rintro ⟨m, r, hm⟩
      cases m with
      | nil =>
        rw [List.nil_append] at hm
        injection hm with h1 hm
        injection hm with h2 hm
        exact Or.inl ⟨by simp [h1], by simp [h2]⟩
      | cons c m =>
        rw [List.cons_append] at hm
        injection hm with h1 hm
        exact Or.inr ⟨m, r, hm⟩

/-- Helper: a decomposition of a string that itself starts with the opening
pair yields a close-pair decomposition of its tail. -/
theorem tail_decomp_of_open (l m r t : List Char)
    (h : obrace :: obrace :: t = l ++ obrace :: obrace :: m ++ cbrace :: cbrace :: r) :
    ∃ m' r' : List Char, t = m' ++ cbrace :: cbrace :: r' := by
  cases l with
  | nil =>
    rw [List.nil_append] at h
    injection h with h1 h
    injection h with h2 h
    exact ⟨m, r, h⟩
  | cons c l' =>
    rw [List.cons_append] at h
    injection h with h1 h
    cases l' with
    | nil =>
      rw [List.nil_append] at h
      injection h with h2 h
      exact ⟨obrace :: m, r, by rw [h]; simp⟩
    | cons c' l'' =>
      rw [List.cons_append] at h
      injection h with h2 h
      exact ⟨l'' ++ obrace :: obrace :: m, r, by rw [h]; simp⟩

/-- The token scanner succeeds exactly on strings containing an opening
brace pair later followed by a closing brace pair — i.e. exactly when the
regex `\x7b\x7b(.*)\x7d\x7d` has a match. -/
theorem searchAfterOpen_iff : ∀ cs : List Char,
    searchAfterOpen cs = true
      ↔ ∃ l m r : List Char, cs = l ++ obrace :: obrace :: m ++ cbrace :: cbrace :: r
  | [] => by
    constructor
    · intro h; simp [searchAfterOpen] at h
    · rintro ⟨l, m, r, h⟩; cases l <;> simp at h
  | [x] => by
    constructor
    · intro h; simp [searchAfterOpen] at h
    · rintro ⟨l, m, r, h⟩
      cases l with
      | nil => simp at h
      | cons c l => rw [List.cons_append] at h; injection h with h1 h; cases l <;> simp at h
  | a :: b :: t => by
    by_cases hab : a = obrace ∧ b = obrace
    · obtain ⟨ha, hb⟩ := hab
      subst ha; subst hb
      rw [show searchAfterOpen (obrace :: obrace :: t) = hasCloseBraces t from by
        simp [searchAfterOpen]]
      rw [hasCloseBraces_iff t]
      constructor
      · rintro ⟨m, r, hm⟩
        exact ⟨[], m, r, by simp [hm]⟩
      · rintro ⟨l, m, r, h⟩
        exact tail_decomp_of_open l m r t h
    · have hstep : searchAfterOpen (a :: b :: t) = searchAfterOpen (b :: t) := by
        rw [show searchAfterOpen (a :: b :: t)
            = (if a = obrace && b = obrace then hasCloseBraces t
               else searchAfterOpen (b :: t)) from rfl]
        rw [if_neg]
        simp only [Bool.and_eq_true, decide_eq_true_eq]
        exact fun hc => hab hc
      rw [hstep, searchAfterOpen_iff (b :: t)]
      constructor
      · rintro ⟨l, m, r, h⟩
        exact ⟨a :: l, m, r, by simp [h]⟩
      · rintro ⟨l, m, r, h⟩
        cases l with
        | nil =>
          rw [List.nil_append] at h
          injection h with h1 h
          injection h with h2 h
          exact absurd ⟨h1, h2⟩ hab
        | cons c l' =>
          rw [List.cons_append] at h
          injection h with h1 h
          exact ⟨l', m, r, h⟩

/-- Parsing a path string always yields at least one component. -/
theorem splitSlashAux_ne_nil : ∀ (cs acc : List Char), splitSlashAux cs acc ≠ []
  | [], acc => by simp [splitSlashAux]
  | c :: t, acc => by
    rw [show splitSlashAux (c :: t) acc
        = (if c = '/' then String.mk acc.reverse :: splitSlashAux t []
           else splitSlashAux t (c :: acc)) from rfl]
    split
    · simp
    · exact splitSlashAux_ne_nil t (c :: acc)

theorem parsePath_ne_nil (s : String) : parsePath s ≠ [] :=
  splitSlashAux_ne_nil s.data []

/-- The name the templated-ness test examines is the final component of the
source-file reference alone. -/
theorem pname_portraitFileOf (cpd : PPath) (e : Entry) :
    pname (portraitFileOf cpd e) = pname (parsePath e.FromFile) := by
  unfold portraitFileOf pname
  rw [List.getLast?_append]
  cases hg : (parsePath e.FromFile).getLast? with
  | none => exact absurd (List.getLast?_eq_none_iff.mp hg) (parsePath_ne_nil e.FromFile)
  | some x => rfl

/-- C8 amended: the migrator treats a source-file reference as templated
exactly when its FINAL NAME COMPONENT contains a delimited `\x7b\x7b...\x7d\x7d`
token (the test never sees directory components); a templated reference's
glob enumerates exactly the files of the reference's directory whose name
ends in `.png`; a reference failing the name test is resolved by a single
existence check. -/
theorem templated_name_component_spec :
    (∀ (cpd : PPath) (e : Entry),
        pname (portraitFileOf cpd e) = pname (parsePath e.FromFile))
    ∧ (∀ s : String, content_patcher_token_search s = true ↔
        ∃ l m r : List Char,
          s.data = l ++ obrace :: obrace :: m ++ cbrace :: cbrace :: r)
    ∧ (∀ (fs : FS) (dir p : PPath), p ∈ globPng fs dir ↔
        p ∈ fs.files ∧ pparent p = dir ∧ strEndsWith (pname p) ".png" = true) := by
  refine ⟨pname_portraitFileOf, ?_, ?_⟩
  · intro s
    exact searchAfterOpen_iff s.data
  · intro fs dir p
    simp [globPng, List.mem_filter]

/-- Witness for the amended C8: a concrete templated file name. -/
theorem templated_name_component_spec_witness :
    content_patcher_token_search "a\x7b\x7bb\x7d\x7dc.png" = true :=
  (templated_name_component_spec.2.1 "a\x7b\x7bb\x7d\x7dc.png").mpr
    ⟨['a'], ['b'], ['c', '.', 'p', 'n', 'g'], rfl⟩

/-- C8 counterexample: a reference whose token sits in a DIRECTORY component
(`\x7b\x7bX\x7d\x7d/a.png`) does contain a delimited token, yet the code's test —
applied to the name component only — fails, and the migration processes the
entry as a literal: no glob enumeration happens and nothing is written, even
though the directory holds a `.png` with a readable legacy descriptor. -/
theorem templated_reference_counterexample :
    content_patcher_token_search "\x7b\x7bX\x7d\x7d/a.png" = true
    ∧ content_patcher_token_search
        (pname (portraitFileOf ["M"]
          ⟨"Load", "Portraits/Abigail.png", "\x7b\x7bX\x7d\x7d/a.png"⟩)) = false
    ∧ (content_patcher_portraits ["M"]
        ⟨[["M", "\x7b\x7bX\x7d\x7d", "b.png"]],
          fun p => if p = ["M", "\x7b\x7bX\x7d\x7d", "b.pytk.json"]
            then some ⟨2, none⟩ else none⟩
        ["Mods", "HDPortraits"] ["Mods", "HDPortraitsPatch"]
        [⟨"Load", "Portraits/Abigail.png", "\x7b\x7bX\x7d\x7d/a.png"⟩]).written = []
    ∧ (content_patcher_portraits ["M"]
        ⟨[["M", "\x7b\x7bX\x7d\x7d", "b.png"]],
          fun p => if p = ["M", "\x7b\x7bX\x7d\x7d", "b.pytk.json"]
            then some ⟨2, none⟩ else none⟩
        ["Mods", "HDPortraits"] ["Mods", "HDPortraitsPatch"]
        [⟨"Load", "Portraits/Abigail.png", "\x7b\x7bX\x7d\x7d/a.png"⟩]).parsed_files = []
    ∧ globPng
        ⟨[["M", "\x7b\x7bX\x7d\x7d", "b.png"]],
          fun p => if p = ["M", "\x7b\x7bX\x7d\x7d", "b.pytk.json"]
            then some ⟨2, none⟩ else none⟩
        (pparent (portraitFileOf ["M"]
          ⟨"Load", "Portraits/Abigail.png", "\x7b\x7bX\x7d\x7d/a.png"⟩))
      = [["M", "\x7b\x7bX\x7d\x7d", "b.png"]]
    ∧ create_metadata_json
        ⟨[["M", "\x7b\x7bX\x7d\x7d", "b.png"]],
          fun p => if p = ["M", "\x7b\x7bX\x7d\x7d", "b.pytk.json"]
            then some ⟨2, none⟩ else none⟩
        ["M", "\x7b\x7bX\x7d\x7d", "b.json"] "x" ≠ none := by
  refine ⟨rfl, rfl, rfl, rfl, rfl, by decide⟩

/-! ## Claim C1 -/

/-- The live `Changes` list as it stands when the snapshot suffix starting
at index `k` is still unprocessed. -/
def tagOrig (k : Nat) (es : List Entry) : List (Option Nat × Entry) :=
  (List.enumFrom k es).map (fun ie => (some ie.1, ie.2))

/-- The tagged interleaving produced for a run of consecutively processed
entries starting at snapshot index `k`: each entry becomes the inserted
successor entry followed by the in-place legacy rewrite. -/
def tagPairs (cpd hd hdp : PPath) (k : Nat) : List Entry → List (Option Nat × Entry)
  | [] => []
  | e :: t => (none, succEntryOf cpd hdp e) :: (some k, legacyEntryOf cpd hd e)
      :: tagPairs cpd hd hdp (k + 1) t

/-- The doubled change list: per original entry the successor entry
immediately followed by the legacy entry, in original order. -/
def doubledChanges (cpd hd hdp : PPath) : List Entry → List Entry
  | [] => []
  | e :: t => succEntryOf cpd hdp e :: legacyEntryOf cpd hd e :: doubledChanges cpd hd hdp t

theorem tagOrig_cons (k : Nat) (e : Entry) (t : List Entry) :
    tagOrig k (e :: t) = (some k, e) :: tagOrig (k + 1) t := by
  unfold tagOrig
  rw [List.enumFrom_cons, List.map_cons]

theorem tagOrig_tags (k : Nat) (es : List Entry) :
    ∀ te ∈ tagOrig k es, ∃ j, te.1 = some j ∧ k ≤ j := by
  intro te hte
  unfold tagOrig at hte
  rw [List.mem_map] at hte
  obtain ⟨ie, hie, rfl⟩ := hte
  have h := List.mem_enumFrom hie
  exact ⟨ie.1, rfl, h.1⟩

theorem tagPairs_map_snd (cpd hd hdp : PPath) :
    ∀ (es : List Entry) (k : Nat),
    (tagPairs cpd hd hdp k es).map Prod.snd = doubledChanges cpd hd hdp es
  | [], _ => rfl
  | e :: t, k => by
    rw [show tagPairs cpd hd hdp k (e :: t)
        = (none, succEntryOf cpd hdp e) :: (some k, legacyEntryOf cpd hd e)
          :: tagPairs cpd hd hdp (k + 1) t from rfl]
    rw [List.map_cons, List.map_cons, tagPairs_map_snd cpd hd hdp t (k + 1)]
    rfl

theorem replaceTag_eq_self (i : Nat) (leg : Entry) :
    ∀ l : List (Option Nat × Entry), (∀ te ∈ l, te.1 ≠ some i) → replaceTag i leg l = l
  | [], _ => rfl
  | a :: l, h => by
    unfold replaceTag
    rw [List.map_cons, if_neg (h a (by simp))]
    congr 1
    exact replaceTag_eq_self i leg l (fun te ht => h te (by simp [ht]))

/-- The net list effect of lines 206-220 when the original entry sits right
after a prefix of length `2 * k` containing no tag `k`: the pair lands
adjacently at the entry's position. -/
theorem emitPair_at (k : Nat) (leg succ : Entry) (P R : List (Option Nat × Entry)) (e : Entry)
    (hP : P.length = 2 * k)
    (hPtags : ∀ te ∈ P, te.1 ≠ some k)
    (hRtags : ∀ te ∈ R, te.1 ≠ some k) :
    emitPair k leg succ (P ++ (some k, e) :: R)
      = P ++ (none, succ) :: (some k, leg) :: R := by
  have h1 : replaceTag k leg (P ++ (some k, e) :: R) = P ++ (some k, leg) :: R := by
    unfold replaceTag
    rw [List.map_append, List.map_cons, if_pos rfl]
    congr 1
    · exact replaceTag_eq_self k leg P hPtags
    · congr 1
      exact replaceTag_eq_self k leg R hRtags
  unfold emitPair
  rw [h1, ← hP]
  exact pyInsert_length_append P (none, succ) ((some k, leg) :: R)

/-- Invariant of the migration loop over a suffix of all-templated portrait
entries: with `2 * k` already-produced elements in front, the loop turns the
tagged suffix into the adjacent interleaving of successor/legacy pairs. -/
theorem migrate_fold_all_templated (cpd : PPath) (fs : FS) (hd hdp : PPath) :
    ∀ (es : List Entry) (k : Nat) (P : List (Option Nat × Entry))
      (parsed : List (String × FileParsed)) (written : List (PPath × AssetDict)),
    P.length = 2 * k →
    (∀ te ∈ P, ∀ j : Nat, te.1 = some j → j < k) →
    (∀ e ∈ es, pname (pparent (parsePath e.Target)) = "Portraits"
      ∧ content_patcher_token_search (pname (portraitFileOf cpd e)) = true) →
    ((List.enumFrom k es).foldl (migrateStep cpd fs hd hdp)
        ⟨P ++ tagOrig k es, parsed, written⟩).changes
      = P ++ tagPairs cpd hd hdp k es
  | [], k, P, parsed, written, hP, htags, hall => by
    simp [tagOrig, tagPairs]
  | e :: t, k, P, parsed, written, hP, htags, hall => by
    rw [List.enumFrom_cons, List.foldl_cons, tagOrig_cons]
    have hme := (hall e (by simp)).1
    have hte := (hall e (by simp)).2
    have hchanges : (migrateStep cpd fs hd hdp
        ⟨P ++ (some k, e) :: tagOrig (k + 1) t, parsed, written⟩ (k, e)).changes
        = (P ++ [(none, succEntryOf cpd hdp e), (some k, legacyEntryOf cpd hd e)])
          ++ tagOrig (k + 1) t := by
      have hstep : (migrateStep cpd fs hd hdp
          ⟨P ++ (some k, e) :: tagOrig (k + 1) t, parsed, written⟩ (k, e)).changes
          = emitPair k (legacyEntryOf cpd hd e) (succEntryOf cpd hdp e)
            (P ++ (some k, e) :: tagOrig (k + 1) t) := by
        simp [migrateStep, hme, hte]
      rw [hstep, emitPair_at k _ _ P (tagOrig (k + 1) t) e hP
        (fun te ht hc => absurd (htags te ht k hc) (by omega))
        (fun te ht hc => by
          obtain ⟨j, hj, hjk⟩ := tagOrig_tags (k + 1) t te ht
          rw [hj] at hc
          have : j = k := Option.some.inj hc
          omega)]
      simp
    have hsplit : migrateStep cpd fs hd hdp
        ⟨P ++ (some k, e) :: tagOrig (k + 1) t, parsed, written⟩ (k, e)
        = ⟨(P ++ [(none, succEntryOf cpd hdp e), (some k, legacyEntryOf cpd hd e)])
            ++ tagOrig (k + 1) t,
           (migrateStep cpd fs hd hdp
             ⟨P ++ (some k, e) :: tagOrig (k + 1) t, parsed, written⟩ (k, e)).parsed_files,
           (migrateStep cpd fs hd hdp
             ⟨P ++ (some k, e) :: tagOrig (k + 1) t, parsed, written⟩ (k, e)).written⟩ := by
      rw [← hchanges]
    rw [hsplit]
    rw [migrate_fold_all_templated cpd fs hd hdp t (k + 1)
      (P ++ [(none, succEntryOf cpd hdp e), (some k, legacyEntryOf cpd hd e)]) _ _
      (by simp [hP]; omega)
      (by
        intro te ht j hj
        rcases List.mem_append.mp ht with hP' | hnew
        · exact Nat.lt_succ_of_lt (htags te hP' j hj)
        · simp only [List.mem_cons, List.not_mem_nil, or_false] at hnew
          rcases hnew with h | h
          · rw [h] at hj; exact absurd hj (by simp)
          · rw [h] at hj; have : k = j := Option.some.inj hj; omega)
      (fun e' he' => hall e' (by simp [he']))]
    simp [tagPairs]

def dfltEntry : Entry := ⟨"", "", ""⟩

/-- The sublist of a live tagged change list consisting of the entries whose
snapshot original is NOT under `Portraits` (those the loop must never
touch). -/
def unmatchedOf (orig : List Entry) (l : List (Option Nat × Entry)) : List Entry :=
  l.filterMap (fun te => match te.1 with
    | some j =>
      if pname (pparent (parsePath (orig.getD j dfltEntry).Target)) ≠ "Portraits"
      then some te.2 else none
    | none => none)

theorem filterMap_pyInsert_none {α β : Type} {f : α → Option β} {x : α} (hx : f x = none) :
    ∀ (n : Nat) (l : List α), (pyInsert n x l).filterMap f = l.filterMap f
  | n, [] => by cases n <;> simp [pyInsert, hx]
  | 0, a :: l => by simp [pyInsert, hx]
  | n + 1, a :: l => by
    rw [show pyInsert (n + 1) x (a :: l) = a :: pyInsert n x l from rfl]
    cases hfa : f a with
    | none =>
      rw [List.filterMap_cons_none hfa, List.filterMap_cons_none hfa,
        filterMap_pyInsert_none hx n l]
    | some b =>
      rw [List.filterMap_cons_some hfa, List.filterMap_cons_some hfa,
        filterMap_pyInsert_none hx n l]

theorem unmatchedOf_replaceTag (orig : List Entry) (i : Nat) (leg : Entry)
    (hmatched : pname (pparent (parsePath (orig.getD i dfltEntry).Target)) = "Portraits")
    (l : List (Option Nat × Entry)) :
    unmatchedOf orig (replaceTag i leg l) = unmatchedOf orig l := by
  unfold unmatchedOf replaceTag
  rw [List.filterMap_map]
  apply List.filterMap_congr
  intro te _
  by_cases hti : te.1 = some i
  · have hm' : ¬(pname (pparent (parsePath (orig.getD i dfltEntry).Target)) ≠ "Portraits") := by
      rw [hmatched]; simp
    rw [List.getD_eq_getElem?_getD] at hmatched
    simp [hti, hmatched]
  · simp only [Function.comp_apply, if_neg hti]

theorem unmatchedOf_emitPair (orig : List Entry) (i : Nat) (leg succ : Entry)
    (hmatched : pname (pparent (parsePath (orig.getD i dfltEntry).Target)) = "Portraits")
    (l : List (Option Nat × Entry)) :
    unmatchedOf orig (emitPair i leg succ l) = unmatchedOf orig l := by
  unfold emitPair
  have h1 : unmatchedOf orig (pyInsert (2 * i) (none, succ) (replaceTag i leg l))
      = unmatchedOf orig (replaceTag i leg l) :=
    filterMap_pyInsert_none rfl (2 * i) (replaceTag i leg l)
  rw [h1, unmatchedOf_replaceTag orig i leg hmatched l]

/-- Every branch of one loop iteration either leaves the live list unchanged
or applies `emitPair`, and `emitPair` only happens for an entry under
`Portraits`. -/
theorem migrateStep_changes_shape (cpd : PPath) (fs : FS) (hd hdp : PPath)
    (st : MigState) (i : Nat) (e : Entry) :
    (migrateStep cpd fs hd hdp st (i, e)).changes = st.changes
    ∨ ((migrateStep cpd fs hd hdp st (i, e)).changes
        = emitPair i (legacyEntryOf cpd hd e) (succEntryOf cpd hdp e) st.changes
      ∧ pname (pparent (parsePath e.Target)) = "Portraits") := by
  simp only [migrateStep]
  split
  · exact Or.inl rfl
  · rename_i hm
    push_neg at hm
    split
    · exact Or.inr ⟨rfl, hm⟩
    · split
      · split
        · exact Or.inl rfl
        · split
          · exact Or.inl rfl
          · exact Or.inr ⟨rfl, hm⟩
      · exact Or.inr ⟨rfl, hm⟩

theorem unmatchedOf_migrateStep (orig : List Entry) (cpd : PPath) (fs : FS)
    (hd hdp : PPath) (st : MigState) (i : Nat) (e : Entry)
    (he : orig.getD i dfltEntry = e) :
    unmatchedOf orig ((migrateStep cpd fs hd hdp st (i, e)).changes)
      = unmatchedOf orig st.changes := by
  rcases migrateStep_changes_shape cpd fs hd hdp st i e with h | ⟨h, hm⟩
  · rw [h]
  · rw [h]
    exact unmatchedOf_emitPair orig i _ _ (by rw [he]; exact hm) st.changes

theorem unmatchedOf_foldl (orig : List Entry) (cpd : PPath) (fs : FS) (hd hdp : PPath) :
    ∀ (l : List (Nat × Entry)) (st : MigState),
    (∀ ie ∈ l, orig.getD ie.1 dfltEntry = ie.2) →
    unmatchedOf orig ((l.foldl (migrateStep cpd fs hd hdp) st).changes)
      = unmatchedOf orig st.changes
  | [], st, _ => rfl
  | ie :: l, st, h => by
    rw [List.foldl_cons]
    rw [unmatchedOf_foldl orig cpd fs hd hdp l _ (fun ie' h' => h ie' (by simp [h']))]
    have hstep := unmatchedOf_migrateStep orig cpd fs hd hdp st ie.1 ie.2 (h ie (by simp))
    simpa using hstep

theorem filterMap_if_eq_filter {α : Type} (p : α → Prop) [DecidablePred p] :
    ∀ l : List α,
    l.filterMap (fun e => if p e then some e else none) = l.filter (fun e => decide (p e))
  | [] => rfl
  | e :: l => by
    by_cases hp : p e
    · simp [hp, filterMap_if_eq_filter p l]
    · simp [hp, filterMap_if_eq_filter p l]

theorem unmatchedOf_init (orig : List Entry) :
    unmatchedOf orig (tagOrig 0 orig)
      = orig.filter
          (fun e => decide (pname (pparent (parsePath e.Target)) ≠ "Portraits")) := by
  unfold unmatchedOf tagOrig
  rw [List.filterMap_map]
  rw [List.filterMap_congr
    (g := fun ie : Nat × Entry =>
      if pname (pparent (parsePath ie.2.Target)) ≠ "Portraits" then some ie.2 else none)
    ?hcong]
  case hcong =>
    intro ie hie
    obtain ⟨-, hlt, hx⟩ := List.mem_enumFrom hie
    have hg : orig.getD ie.1 dfltEntry = ie.2 := by
      rw [hx]
      simp only [Nat.sub_zero]
      rw [List.getD_eq_getElem?_getD, List.getElem?_eq_getElem (by simpa using hlt)]
      rfl
    simp only [Function.comp_apply, hg]
  rw [show (fun ie : Nat × Entry =>
        if pname (pparent (parsePath ie.2.Target)) ≠ "Portraits" then some ie.2 else none)
      = (fun e : Entry =>
          if pname (pparent (parsePath e.Target)) ≠ "Portraits" then some e else none)
        ∘ Prod.snd from rfl]
  rw [← List.filterMap_map]
  rw [show List.map Prod.snd (List.enumFrom 0 orig) = orig from List.enum_map_snd orig]
  exact filterMap_if_eq_filter _ orig

/-- C1 counterexample: with a non-portrait entry in front, the insertion
index `2 * index` overshoots the entry's live position, so the pair comes
out as legacy THEN successor — the successor entry does not immediately
precede the legacy entry as the claim requires ([unrelated, legacy,
successor] instead of [unrelated, successor, legacy]). -/
theorem pair_order_counterexample :
    (content_patcher_portraits ["M"] ⟨[], fun _ => none⟩ ["Mods", "HDPortraits"]
        ["Mods", "HDPortraitsPatch"]
        [⟨"EditData", "Data/Shops", "data.json"⟩,
         ⟨"Load", "Portraits/Abigail.png", "\x7b\x7bx\x7d\x7d.png"⟩]).changes.map Prod.snd
      = [⟨"EditData", "Data/Shops", "data.json"⟩,
         ⟨"Load", "Mods/HDPortraits/Abigail.png", "\x7b\x7bx\x7d\x7d.json"⟩,
         ⟨"Load", "Mods/HDPortraitsPatch/Abigail.png", "\x7b\x7bx\x7d\x7d.png"⟩]
    ∧ ([⟨"EditData", "Data/Shops", "data.json"⟩,
        ⟨"Load", "Mods/HDPortraits/Abigail.png", "\x7b\x7bx\x7d\x7d.json"⟩,
        ⟨"Load", "Mods/HDPortraitsPatch/Abigail.png", "\x7b\x7bx\x7d\x7d.png"⟩] : List Entry)
      ≠ [⟨"EditData", "Data/Shops", "data.json"⟩,
         ⟨"Load", "Mods/HDPortraitsPatch/Abigail.png", "\x7b\x7bx\x7d\x7d.png"⟩,
         ⟨"Load", "Mods/HDPortraits/Abigail.png", "\x7b\x7bx\x7d\x7d.json"⟩] := ⟨rfl, by decide⟩

/-- C1 amended: entries not under the portraits directory are never
modified and retain their relative order (second conjunct, for every
input); and when EVERY change entry is a portrait entry processed through
the templated branch — so that the matched entries form a prefix and the
`2 * index` insertion arithmetic is exact — each entry is replaced by
exactly two adjacent entries, the successor-target entry immediately
preceding the legacy-target entry at the original entry's position (first
conjunct).  With non-portrait entries interleaved before a portrait entry
the successor entry is instead inserted at index `2 * index`, which lands
after the legacy entry (see the counterexample). -/
theorem migration_doubles_entries :
    (∀ (cpd : PPath) (fs : FS) (hd hdp : PPath) (changes : List Entry),
        (∀ e ∈ changes, pname (pparent (parsePath e.Target)) = "Portraits"
          ∧ content_patcher_token_search (pname (portraitFileOf cpd e)) = true) →
        (content_patcher_portraits cpd fs hd hdp changes).changes.map Prod.snd
          = doubledChanges cpd hd hdp changes)
    ∧ (∀ (cpd : PPath) (fs : FS) (hd hdp : PPath) (changes : List Entry),
        unmatchedOf changes ((content_patcher_portraits cpd fs hd hdp changes).changes)
          = changes.filter
              (fun e => decide (pname (pparent (parsePath e.Target)) ≠ "Portraits"))) := by
  constructor
  · intro cpd fs hd hdp changes hall
    have h : (content_patcher_portraits cpd fs hd hdp changes).changes
        = [] ++ tagPairs cpd hd hdp 0 changes :=
      migrate_fold_all_templated cpd fs hd hdp changes 0 [] [] []
        (by simp) (by simp) hall
    rw [h, List.nil_append, tagPairs_map_snd]
  · intro cpd fs hd hdp changes
    have hconsist : ∀ ie ∈ changes.enum, changes.getD ie.1 dfltEntry = ie.2 := by
      intro ie hie
      obtain ⟨-, hlt, hx⟩ := List.mem_enumFrom hie
      rw [hx]
      simp only [Nat.sub_zero]
      rw [List.getD_eq_getElem?_getD, List.getElem?_eq_getElem (by simpa using hlt)]
      rfl
    have h := unmatchedOf_foldl changes cpd fs hd hdp changes.enum
      ⟨tagOrig 0 changes, [], []⟩ hconsist
    exact h.trans (unmatchedOf_init changes)

/-- Witness for the amended C1: a concrete two-entry all-templated run. -/
theorem migration_doubles_entries_witness :
    (content_patcher_portraits ["M"] ⟨[], fun _ => none⟩ ["Mods", "HDPortraits"]
        ["Mods", "HDPortraitsPatch"]
        [⟨"Load", "Portraits/Abigail.png", "\x7b\x7bx\x7d\x7d.png"⟩,
         ⟨"Load", "Portraits/Haley.png", "\x7b\x7by\x7d\x7d.png"⟩]).changes.map Prod.snd
      = [⟨"Load", "Mods/HDPortraitsPatch/Abigail.png", "\x7b\x7bx\x7d\x7d.png"⟩,
         ⟨"Load", "Mods/HDPortraits/Abigail.png", "\x7b\x7bx\x7d\x7d.json"⟩,
         ⟨"Load", "Mods/HDPortraitsPatch/Haley.png", "\x7b\x7by\x7d\x7d.png"⟩,
         ⟨"Load", "Mods/HDPortraits/Haley.png", "\x7b\x7by\x7d\x7d.json"⟩] := by
  have h := migration_doubles_entries.1 ["M"] ⟨[], fun _ => none⟩ ["Mods", "HDPortraits"]
    ["Mods", "HDPortraitsPatch"]
    [⟨"Load", "Portraits/Abigail.png", "\x7b\x7bx\x7d\x7d.png"⟩,
     ⟨"Load", "Portraits/Haley.png", "\x7b\x7by\x7d\x7d.png"⟩] (by decide)
  exact h.trans (by rfl)
